import Mathlib

/-!
# Verification of the temperature-logger compaction engine

Shallow embedding of the merge/decimation core of the temperature logger
firmware (`app/src/temperature-logger.c`, `app/include/app/temperature-logger.h`,
`app/include/app/lock.h`, `app/include/app/error.h`).

Modelling conventions:
* `temperature_t` (`int16_t`) is modelled as `Int`; stores into a
  `temperature_t` field that may leave the `int16_t` range in C are modelled
  with explicit wrap-around (`wrap16`).  Theorem hypotheses keep values in
  range wherever the C computation is well defined.
* `sys_minutes_t` is an unsigned minute counter whose typedef lives in the
  (absent) `app/time.h`; it is modelled as `Nat`.  The C unsigned
  subtractions appear as truncated `Nat` subtraction; all theorems restrict
  to the non-wrapping domain (target timestamps at or after the earlier
  sample), which is the domain on which the firmware uses interpolation.
* The `float` intermediates of `interpolate` are modelled by exact integer
  arithmetic truncated toward zero (`Int.tdiv`), i.e. real-number
  arithmetic followed by the C `(int16_t)` truncation.  On the concrete
  inputs evaluated below every intermediate is exactly representable in
  `binary32`, so model and C agree there.
* `struct temperature_list_t` carries a fixed array `data[N]` plus a valid
  length; it is modelled as the `List` of its valid prefix.  The capacity
  `CONFIG_TEMPERATURE_LOGGER_BUFFER_SIZE` is a build-time constant
  (default 100) and is passed as an explicit parameter `N`.
* The `k_mutex` locking inside the C functions is orthogonal to the data
  transformation and is treated separately (`TRIPLE_LOCK` order model).
* C `while` loops are embedded with an explicit fuel argument chosen large
  enough; lemmas prove the fuel bound is never reached.
-/

namespace TempLogger

/-- The C `struct temperature_sample_t`: a fixed-point temperature
(`int16_t`, value = real °C × 16) together with an uptime in minutes. -/
structure TemperatureSample where
  temperature : Int
  uptime : Nat
deriving DecidableEq, Repr, Inhabited

/-- The C `struct temperature_list_t` without its lock: the valid prefix
`data[0..length)` of the sample array. -/
abbrev TemperatureList := List TemperatureSample

/-- The C `enum error_e` (the constants used by the merge engine). -/
inductive ErrorE where
  | E_SUCCESS
  | E_ERROR
  | E_NOBUFS
  | E_NULL_PTR
  | E_END_OF_ITER
deriving DecidableEq, Repr, Inhabited

/-- Timestamp order on samples: non-decreasing uptime. -/
def leU (a b : TemperatureSample) : Prop := a.uptime ≤ b.uptime

instance : DecidableRel leU := fun a b => inferInstanceAs (Decidable (a.uptime ≤ b.uptime))

/-- A list is chronologically sorted when adjacent uptimes are
non-decreasing (the `temperature_list_t` invariant). -/
def TemperatureList.sortedByTime (l : TemperatureList) : Prop := List.Chain' leU l

/-- Executable check for `sortedByTime`. -/
def sortedByTimeB : TemperatureList → Bool
  | [] => true
  | [_] => true
  | a :: b :: l => (a.uptime ≤ b.uptime) && sortedByTimeB (b :: l)

theorem sortedByTimeB_iff : ∀ l : TemperatureList,
    sortedByTimeB l = true ↔ l.sortedByTime
  | [] => by simp [sortedByTimeB, TemperatureList.sortedByTime]
  | [a] => by simp [sortedByTimeB, TemperatureList.sortedByTime]
  | a :: b :: l => by
    rw [TemperatureList.sortedByTime, List.chain'_cons]
    have ih := sortedByTimeB_iff (b :: l)
    rw [TemperatureList.sortedByTime] at ih
    rw [← ih]
    simp [sortedByTimeB, leU]

instance (l : TemperatureList) : Decidable l.sortedByTime :=
  decidable_of_iff (sortedByTimeB l = true) (sortedByTimeB_iff l)

theorem leU_trans : Transitive leU := fun _ _ _ h1 h2 => Nat.le_trans h1 h2

instance : IsTrans TemperatureSample leU := ⟨fun _ _ _ h1 h2 => Nat.le_trans h1 h2⟩

theorem sortedByTime_pairwise {l : TemperatureList} (h : l.sortedByTime) :
    List.Pairwise leU l := List.chain'_iff_pairwise.mp h

theorem pairwise_sortedByTime {l : TemperatureList} (h : List.Pairwise leU l) :
    l.sortedByTime := List.chain'_iff_pairwise.mpr h

/-- The chronological two-way merge order produced by the iterator of
`temperature-logger.c`: the side whose next sample has the strictly
smaller uptime is taken first, `src2` winning ties.  This is the
specification-level description; `merge_iterate` below is the embedding of
the C iterator and is proved to enumerate exactly this list. -/
def mergeChron : TemperatureList → TemperatureList → TemperatureList
  | [], ys => ys
  | x :: xs, [] => x :: xs
  | x :: xs, y :: ys =>
    if x.uptime < y.uptime then x :: mergeChron xs (y :: ys)
    else y :: mergeChron (x :: xs) ys
termination_by xs ys => xs.length + ys.length

@[simp] theorem mergeChron_nil_left (ys : TemperatureList) : mergeChron [] ys = ys := by
  rw [mergeChron]

@[simp] theorem mergeChron_nil_right (xs : TemperatureList) : mergeChron xs [] = xs := by
  cases xs <;> rw [mergeChron]

theorem mergeChron_cons_cons (x y : TemperatureSample) (xs ys : TemperatureList) :
    mergeChron (x :: xs) (y :: ys) =
      if x.uptime < y.uptime then x :: mergeChron xs (y :: ys)
      else y :: mergeChron (x :: xs) ys := by
  rw [mergeChron]

theorem mergeChron_perm (xs ys : TemperatureList) :
    List.Perm (mergeChron xs ys) (xs ++ ys) := by
  induction xs generalizing ys with
  | nil => simp
  | cons x xs ih1 =>
    induction ys with
    | nil => simp
    | cons y ys ih2 =>
      rw [mergeChron_cons_cons]
      split
      · exact List.Perm.cons x (ih1 (y :: ys))
      · exact List.Perm.trans (List.Perm.cons y ih2) List.perm_middle.symm

theorem mergeChron_length (xs ys : TemperatureList) :
    (mergeChron xs ys).length = xs.length + ys.length := by
  have := (mergeChron_perm xs ys).length_eq
  simpa using this

theorem mem_mergeChron {z : TemperatureSample} {xs ys : TemperatureList} :
    z ∈ mergeChron xs ys ↔ z ∈ xs ∨ z ∈ ys := by
  rw [(mergeChron_perm xs ys).mem_iff, List.mem_append]

theorem mergeChron_pairwise {xs ys : TemperatureList}
    (hx : List.Pairwise leU xs) (hy : List.Pairwise leU ys) :
    List.Pairwise leU (mergeChron xs ys) := by
  induction xs generalizing ys with
  | nil => simpa
  | cons x xs ih1 =>
    induction ys with
    | nil => simpa using hx
    | cons y ys ih2 =>
      rw [mergeChron_cons_cons]
      rcases List.pairwise_cons.mp hx with ⟨hxhead, hxtail⟩
      rcases List.pairwise_cons.mp hy with ⟨hyhead, hytail⟩
      split
      · rename_i hlt
        refine List.pairwise_cons.mpr ⟨?_, ih1 hxtail hy⟩
        intro z hz
        rcases mem_mergeChron.mp hz with hz | hz
        · exact hxhead z hz
        · rcases List.mem_cons.mp hz with rfl | hz
          · exact Nat.le_of_lt hlt
          · exact Nat.le_trans (Nat.le_of_lt hlt) (hyhead z hz)
      · rename_i hnlt
        refine List.pairwise_cons.mpr ⟨?_, ih2 hytail⟩
        intro z hz
        rcases mem_mergeChron.mp hz with hz | hz
        · rcases List.mem_cons.mp hz with rfl | hz
          · exact Nat.le_of_not_lt hnlt
          · exact Nat.le_trans (Nat.le_of_not_lt hnlt) (hxhead z hz)
        · exact hyhead z hz

theorem mergeChron_sorted {xs ys : TemperatureList}
    (hx : xs.sortedByTime) (hy : ys.sortedByTime) :
    (mergeChron xs ys).sortedByTime :=
  pairwise_sortedByTime
    (mergeChron_pairwise (sortedByTime_pairwise hx) (sortedByTime_pairwise hy))

/-- Which source list the iterator's `current_list` pointer designates. -/
inductive Side where
  | one
  | two
deriving DecidableEq, Repr, Fintype, Inhabited

/-- The C `struct merge_iterator_t`.  The C `current_list` pointer (NULL, `src1` or
`src2`) becomes an `Option Side`. -/
structure MergeIterator where
  src1 : TemperatureList
  src2 : TemperatureList
  current_list : Option Side
  current_index : Nat
  next_src1_index : Nat
  next_src2_index : Nat
deriving DecidableEq, Repr, Inhabited

/-- Dereference the `current_list` pointer. -/
def MergeIterator.listOf (m : MergeIterator) : Side → TemperatureList
  | .one => m.src1
  | .two => m.src2

/-- Embedding of `init_merge_iterator` (temperature-logger.c:186-226).  In the both-empty
branch the C code leaves the index fields unwritten; they are set to 0 here
and are never read on that path. -/
def init_merge_iterator (src1 src2 : TemperatureList) : MergeIterator :=
  if src1.length = 0 ∧ src2.length = 0 then
    { src1 := src1, src2 := src2, current_list := none,
      current_index := 0, next_src1_index := 0, next_src2_index := 0 }
  else if src1.length = 0 then
    { src1 := src1, src2 := src2, current_list := some Side.two,
      current_index := 0, next_src1_index := 0, next_src2_index := 1 }
  else if src2.length = 0 then
    { src1 := src1, src2 := src2, current_list := some Side.one,
      current_index := 0, next_src1_index := 1, next_src2_index := 0 }
  else if (src1.getD 0 default).uptime < (src2.getD 0 default).uptime then
    { src1 := src1, src2 := src2, current_list := some Side.one,
      current_index := 0, next_src1_index := 1, next_src2_index := 0 }
  else
    { src1 := src1, src2 := src2, current_list := some Side.two,
      current_index := 0, next_src1_index := 0, next_src2_index := 1 }

/-- Embedding of `merge_iterate` (temperature-logger.c:228-276): yield the sample at the
current position, then advance the iterator (smaller next uptime first,
`src2` winning ties); returns `E_END_OF_ITER` once exhausted. -/
def merge_iterate (m : MergeIterator) :
    Except ErrorE (TemperatureSample × MergeIterator) :=
  match m.current_list with
  | none => .error .E_END_OF_ITER
  | some side =>
    let sample := (m.listOf side).getD m.current_index default
    if m.next_src1_index = m.src1.length ∧ m.next_src2_index = m.src2.length then
      .ok (sample, { m with current_list := none })
    else if m.next_src1_index = m.src1.length then
      .ok (sample,
        { m with
          current_list := some Side.two
          current_index := m.next_src2_index
          next_src2_index := m.next_src2_index + 1 })
    else if m.next_src2_index = m.src2.length then
      .ok (sample,
        { m with
          current_list := some Side.one
          current_index := m.next_src1_index
          next_src1_index := m.next_src1_index + 1 })
    else if (m.src1.getD m.next_src1_index default).uptime <
            (m.src2.getD m.next_src2_index default).uptime then
      .ok (sample,
        { m with
          current_list := some Side.one
          current_index := m.next_src1_index
          next_src1_index := m.next_src1_index + 1 })
    else
      .ok (sample,
        { m with
          current_list := some Side.two
          current_index := m.next_src2_index
          next_src2_index := m.next_src2_index + 1 })

/-- The sequence of samples a well-formed iterator state will still yield:
the current sample followed by the chronological merge of the unconsumed
tails of the two sources. -/
def pendingOf (m : MergeIterator) : TemperatureList :=
  match m.current_list with
  | none => []
  | some side =>
    (m.listOf side).getD m.current_index default ::
      mergeChron (m.src1.drop m.next_src1_index) (m.src2.drop m.next_src2_index)

/-- Well-formedness of an iterator state: whenever the current pointer is
set, the current index and the two next indices are in range. -/
def WFIter (m : MergeIterator) : Prop :=
  ∀ side, m.current_list = some side →
    m.current_index < (m.listOf side).length ∧
    m.next_src1_index ≤ m.src1.length ∧
    m.next_src2_index ≤ m.src2.length

instance (m : MergeIterator) : Decidable (WFIter m) :=
  inferInstanceAs (Decidable (∀ _side, _ → _))

theorem pendingOf_none {m : MergeIterator} (h : m.current_list = none) :
    pendingOf m = [] := by
  unfold pendingOf
  rw [h]

theorem current_isSome_of_pending_ne_nil {m : MergeIterator}
    (h : pendingOf m ≠ []) : ∃ side, m.current_list = some side := by
  unfold pendingOf at h
  cases hc : m.current_list with
  | none => rw [hc] at h; simp at h
  | some side => exact ⟨side, rfl⟩

theorem drop_cons_of_lt {l : TemperatureList} {n : Nat} (h : n < l.length) :
    l.drop n = l.getD n default :: l.drop (n + 1) := by
  rw [List.getD_eq_getElem l default h]
  exact List.drop_eq_getElem_cons h

/-- Exhausted iterator: a further advance attempt fails with
`E_END_OF_ITER` (and the pending sequence is empty). -/
theorem merge_iterate_exhausted {m : MergeIterator} (h : m.current_list = none) :
    merge_iterate m = .error .E_END_OF_ITER := by
  unfold merge_iterate
  rw [h]

/-- One-step simulation: a well-formed, non-exhausted iterator yields the
head of its pending sequence and steps to a well-formed state whose pending
sequence is the tail. -/
theorem merge_iterate_step {m : MergeIterator} {side : Side}
    (hwf : WFIter m) (hc : m.current_list = some side) :
    ∃ m', merge_iterate m =
        .ok ((m.listOf side).getD m.current_index default, m') ∧
      WFIter m' ∧
      pendingOf m = (m.listOf side).getD m.current_index default :: pendingOf m' := by
  obtain ⟨hcur, hn1, hn2⟩ := hwf side hc
  simp only [merge_iterate, hc]
  by_cases hend : m.next_src1_index = m.src1.length ∧ m.next_src2_index = m.src2.length
  · refine ⟨_, by rw [if_pos hend], ?_, ?_⟩
    · intro s hs
      simp at hs
    · unfold pendingOf
      rw [hc]
      simp [hend.1, hend.2, MergeIterator.listOf]
  · rw [if_neg hend]
    by_cases h1 : m.next_src1_index = m.src1.length
    · have h2 : m.next_src2_index ≠ m.src2.length := fun h2 => hend ⟨h1, h2⟩
      have h2lt : m.next_src2_index < m.src2.length := Nat.lt_of_le_of_ne hn2 h2
      rw [if_pos h1]
      refine ⟨_, rfl, ?_, ?_⟩
      · intro s hs
        simp only [Option.some.injEq] at hs
        subst hs
        exact ⟨h2lt, by simpa [MergeIterator.listOf] using hn1, by simpa [MergeIterator.listOf] using h2lt⟩
      · unfold pendingOf
        rw [hc]
        simp only [MergeIterator.listOf, List.cons.injEq, true_and]
        rw [h1, List.drop_length, drop_cons_of_lt h2lt]
        simp [mergeChron]
    · rw [if_neg h1]
      have h1lt : m.next_src1_index < m.src1.length := Nat.lt_of_le_of_ne hn1 h1
      by_cases h2 : m.next_src2_index = m.src2.length
      · rw [if_pos h2]
        refine ⟨_, rfl, ?_, ?_⟩
        · intro s hs
          simp only [Option.some.injEq] at hs
          subst hs
          exact ⟨h1lt, by simpa [MergeIterator.listOf] using h1lt, by simpa [MergeIterator.listOf] using hn2⟩
        · unfold pendingOf
          rw [hc]
          simp only [MergeIterator.listOf, List.cons.injEq, true_and]
          rw [h2, List.drop_length, drop_cons_of_lt h1lt]
          simp [mergeChron]
      · rw [if_neg h2]
        have h2lt : m.next_src2_index < m.src2.length := Nat.lt_of_le_of_ne hn2 h2
        by_cases hlt : (m.src1.getD m.next_src1_index default).uptime <
            (m.src2.getD m.next_src2_index default).uptime
        · rw [if_pos hlt]
          refine ⟨_, rfl, ?_, ?_⟩
          · intro s hs
            simp only [Option.some.injEq] at hs
            subst hs
            exact ⟨h1lt, by simpa [MergeIterator.listOf] using h1lt, by simpa [MergeIterator.listOf] using hn2⟩
          · unfold pendingOf
            rw [hc]
            simp only [MergeIterator.listOf, List.cons.injEq, true_and]
            rw [drop_cons_of_lt h1lt, drop_cons_of_lt h2lt, mergeChron_cons_cons,
              if_pos hlt, ← drop_cons_of_lt h2lt]
        · rw [if_neg hlt]
          refine ⟨_, rfl, ?_, ?_⟩
          · intro s hs
            simp only [Option.some.injEq] at hs
            subst hs
            exact ⟨h2lt, by simpa [MergeIterator.listOf] using hn1, by simpa [MergeIterator.listOf] using h2lt⟩
          · unfold pendingOf
            rw [hc]
            simp only [MergeIterator.listOf, List.cons.injEq, true_and]
            rw [drop_cons_of_lt h1lt, drop_cons_of_lt h2lt, mergeChron_cons_cons,
              if_neg hlt, ← drop_cons_of_lt h1lt]

/-- A freshly initialized iterator is well formed. -/
theorem init_merge_iterator_wf (src1 src2 : TemperatureList) :
    WFIter (init_merge_iterator src1 src2) := by
  unfold init_merge_iterator
  split
  · intro s hs
    simp at hs
  · rename_i h1
    rw [not_and_or] at h1
    split
    · rename_i h10
      rcases h1 with h1 | h2
      · exact absurd h10 h1
      · intro s hs
        simp only [Option.some.injEq] at hs
        subst hs
        refine ⟨?_, by simp [h10], by dsimp only; omega⟩
        simpa [MergeIterator.listOf] using Nat.pos_of_ne_zero h2
    · rename_i h10
      split
      · rename_i h20
        intro s hs
        simp only [Option.some.injEq] at hs
        subst hs
        refine ⟨?_, by dsimp only; omega, by simp [h20]⟩
        simpa [MergeIterator.listOf] using Nat.pos_of_ne_zero h10
      · rename_i h20
        split
        · intro s hs
          simp only [Option.some.injEq] at hs
          subst hs
          refine ⟨?_, by dsimp only; omega, by dsimp only; omega⟩
          simpa [MergeIterator.listOf] using Nat.pos_of_ne_zero h10
        · intro s hs
          simp only [Option.some.injEq] at hs
          subst hs
          refine ⟨?_, by dsimp only; omega, by dsimp only; omega⟩
          simpa [MergeIterator.listOf] using Nat.pos_of_ne_zero h20

/-- A freshly initialized iterator will yield exactly the chronological
merge of its two sources. -/
theorem pendingOf_init (src1 src2 : TemperatureList) :
    pendingOf (init_merge_iterator src1 src2) = mergeChron src1 src2 := by
  rcases hs1 : src1 with _ | ⟨x, xs⟩
  · rcases hs2 : src2 with _ | ⟨y, ys⟩
    · simp [init_merge_iterator, pendingOf]
    · simp [init_merge_iterator, pendingOf, MergeIterator.listOf]
  · rcases hs2 : src2 with _ | ⟨y, ys⟩
    · simp [init_merge_iterator, pendingOf, MergeIterator.listOf]
    · unfold init_merge_iterator
      rw [if_neg (by simp), if_neg (by simp), if_neg (by simp)]
      rw [mergeChron_cons_cons]
      by_cases hlt : ((x :: xs).getD 0 default).uptime < ((y :: ys).getD 0 default).uptime
      · rw [if_pos hlt, if_pos (by simpa using hlt)]
        simp [pendingOf, MergeIterator.listOf]
      · rw [if_neg hlt, if_neg (by simpa using hlt)]
        simp [pendingOf, MergeIterator.listOf]

/-- The drain loop of `merge_without_decimation` (temperature-logger.c:292-309):
iterate until `E_END_OF_ITER`, accumulating samples in the local staging
buffer; `E_END_OF_ITER` is converted to success.  The C `while (true)` loop
carries no fuel; here fuel is passed explicitly and `drainLoop_pending`
shows the bound chosen by `merge_without_decimation` is never reached. -/
def drainLoop : Nat → MergeIterator → TemperatureList →
    Except ErrorE TemperatureList
  | 0, _, _ => .error .E_ERROR
  | fuel + 1, m, acc =>
    match merge_iterate m with
    | .error .E_END_OF_ITER => .ok acc
    | .error _ => .error .E_ERROR
    | .ok (sample, m') => drainLoop fuel m' (acc ++ [sample])

/-- Embedding of `merge_without_decimation` (temperature-logger.c:278-310), with the
destination-copy step returning the staged list.  (The C null-pointer
checks have no counterpart for value arguments.) -/
def merge_without_decimation (src1 src2 : TemperatureList) :
    Except ErrorE TemperatureList :=
  drainLoop (src1.length + src2.length + 1) (init_merge_iterator src1 src2) []

theorem drainLoop_pending :
    ∀ (pending : TemperatureList) (fuel : Nat) (m : MergeIterator)
      (acc : TemperatureList), WFIter m → pendingOf m = pending →
      pending.length + 1 ≤ fuel →
      drainLoop fuel m acc = .ok (acc ++ pending) := by
  intro pending
  induction pending with
  | nil =>
    intro fuel m acc hwf hp hf
    rcases fuel with _ | fuel
    · omega
    · have hnone : m.current_list = none := by
        cases hc : m.current_list with
        | none => rfl
        | some side =>
          obtain ⟨m', hstep, _, hpend⟩ := merge_iterate_step hwf hc
          rw [hp] at hpend
          exact absurd hpend (by simp)
      unfold drainLoop
      rw [merge_iterate_exhausted hnone]
      simp
  | cons s pending ih =>
    intro fuel m acc hwf hp hf
    rcases fuel with _ | fuel
    · simp at hf
    · obtain ⟨side, hc⟩ := current_isSome_of_pending_ne_nil (by rw [hp]; simp)
      obtain ⟨m', hstep, hwf', hpend⟩ := merge_iterate_step hwf hc
      rw [hp] at hpend
      obtain ⟨h1, h2⟩ := (List.cons.injEq _ _ _ _).mp hpend.symm
      rw [h1] at hstep
      unfold drainLoop
      rw [hstep]
      show drainLoop fuel m' (acc ++ [s]) = _
      rw [ih fuel m' (acc ++ [s]) hwf' h2 (by simpa using hf)]
      simp

/-- The exact-merge path always succeeds and produces exactly the
chronological merge of its sources. -/
theorem merge_without_decimation_eq (src1 src2 : TemperatureList) :
    merge_without_decimation src1 src2 = .ok (mergeChron src1 src2) := by
  unfold merge_without_decimation
  have h := drainLoop_pending (mergeChron src1 src2)
    (src1.length + src2.length + 1) (init_merge_iterator src1 src2) []
    (init_merge_iterator_wf src1 src2) (pendingOf_init src1 src2)
    (by rw [mergeChron_length])
  simpa using h

/-- Conversion of an `Int` to the value of the corresponding `int16_t`
(two's-complement wrap-around), as gcc performs it for the implicit
narrowing stores into `temperature_t` fields. -/
def wrap16 (x : Int) : Int := (x + 2 ^ 15) % 2 ^ 16 - 2 ^ 15

theorem wrap16_eq_self {x : Int} (h1 : -(2 ^ 15) ≤ x) (h2 : x < 2 ^ 15) :
    wrap16 x = x := by
  unfold wrap16
  rw [Int.emod_eq_of_lt (by omega) (by omega)]
  omega

/-- Embedding of `interpolate` (temperature-logger.c:157-184).  Equal timestamps:
truncating integer mean.  Otherwise linear interpolation from the earlier
sample; note the C computes `d_temp` as `t2->temperature - t1->temperature`
(second argument minus first), not later-minus-earlier.  The two `Nat`
subtractions are in-range images of the C `uint32_t` subtractions whenever
`earlier.uptime ≤ uptime ≤ later.uptime`; the float product/quotient is
modelled as exact arithmetic truncated toward zero by the `(int16_t)`
cast, and both narrowing stores wrap. -/
def interpolate (t1 t2 : TemperatureSample) (uptime : Nat) : TemperatureSample :=
  if t1.uptime = t2.uptime then
    { temperature := wrap16 (Int.tdiv (t1.temperature + t2.temperature) 2),
      uptime := uptime }
  else
    let earlier := if t1.uptime < t2.uptime then t1 else t2
    let later := if t1.uptime < t2.uptime then t2 else t1
    let d_temp : Int := t2.temperature - t1.temperature
    let d_uptime : Nat := later.uptime - earlier.uptime
    let d_uptime_to_result : Nat := uptime - earlier.uptime
    let d_temp_to_result : Int :=
      wrap16 (Int.tdiv (d_temp * (d_uptime_to_result : Int)) (d_uptime : Int))
    { temperature := wrap16 (earlier.temperature + d_temp_to_result),
      uptime := uptime }

@[simp] theorem interpolate_uptime (t1 t2 : TemperatureSample) (uptime : Nat) :
    (interpolate t1 t2 uptime).uptime = uptime := by
  unfold interpolate
  split
  · rfl
  · rfl

/-- The `while (merge_index < N)` loop of `merge_with_decimation`
(temperature-logger.c:338-358): either the running target time lies in the
`[prev, current]` window and an interpolated sample is emitted, or the
cursor pair is advanced from the merge iterator; an iterator error aborts
with `E_ERROR`.  Fuel models the unbounded C loop; `decimLoop_ne_fuelOut`
shows the bound used by `merge_with_decimation` is never reached. -/
def decimLoop (N base r : Nat) :
    Nat → MergeIterator → TemperatureSample → TemperatureSample →
    Nat → Nat → TemperatureList → Option (Except ErrorE TemperatureList)
  | 0, _, _, _, _, _, _ => none
  | fuel + 1, m, prev, current, k, t, acc =>
    if k < N then
      if prev.uptime ≤ t ∧ t ≤ current.uptime then
        decimLoop N base r fuel m prev current (k + 1)
          (t + base + (if k + 1 ≤ r then 1 else 0))
          (acc ++ [interpolate prev current t])
      else
        match merge_iterate m with
        | .ok (c, m') => decimLoop N base r fuel m' current c k t acc
        | .error _ => some (.error .E_ERROR)
    else
      some (.ok acc)

/-- Embedding of `merge_with_decimation` (temperature-logger.c:312-364).  The C ignores
the return values of the two priming `merge_iterate` calls and would
dereference NULL if either failed; that (unreachable for inputs above
capacity) case is modelled as `E_ERROR`. -/
def merge_with_decimation (N : Nat) (src1 src2 : TemperatureList) :
    Except ErrorE TemperatureList :=
  let start_uptime := min (src1.getD 0 default).uptime (src2.getD 0 default).uptime
  let end_uptime := max (src1.getD (src1.length - 1) default).uptime
    (src2.getD (src2.length - 1) default).uptime
  let merge_duration := end_uptime - start_uptime
  let sample_base_period := merge_duration / (N - 1)
  let long_periods_needed := merge_duration % (N - 1)
  match merge_iterate (init_merge_iterator src1 src2) with
  | .error _ => .error .E_ERROR
  | .ok (prev, m1) =>
    match merge_iterate m1 with
    | .error _ => .error .E_ERROR
    | .ok (current, m2) =>
      match decimLoop N sample_base_period long_periods_needed
          (N + src1.length + src2.length + 1) m2 prev current 0 start_uptime [] with
      | some res => res
      | none => .error .E_ERROR

/-- Embedding of `merge_temperature_lists` (temperature-logger.c:366-387): dispatch on
`len1 + len2 <= N` between exact merge and decimation.  The C null checks
and the `TRIPLE_LOCK`/`TRIPLE_UNLOCK` bracket around the dispatch act on
the lock identities only (modelled separately below) and do not touch the
list data. -/
def merge_temperature_lists (N : Nat) (src1 src2 : TemperatureList) :
    Except ErrorE TemperatureList :=
  if src1.length + src2.length ≤ N then
    merge_without_decimation src1 src2
  else
    merge_with_decimation N src1 src2

/-- Embedding of `append_temperature_sample` (temperature-logger.c:137-155): fail with
`E_NOBUFS` when the list is at capacity `N`, otherwise write at index
`length` and increment `length`.  Returned pair: (error code, list after
the call). -/
def append_temperature_sample (N : Nat) (list : TemperatureList)
    (sample : TemperatureSample) : ErrorE × TemperatureList :=
  if list.length = N then
    (.E_NOBUFS, list)
  else
    (.E_SUCCESS, list ++ [sample])

/-- Zephyr's `-ENOENT` as returned by `nvs_read` for a missing key. -/
def ENOENT : Int := 2

/-- Embedding of `load_temperature_list` (temperature-logger.c:54-87).  The NVS
collaborator is an oracle: `bytesRead` is the `nvs_read` return value,
`content` the bytes it deposited in `t` (decoded), `store` the key's state
(`none` = absent).  `fullSize` is `offsetof(struct temperature_list_t,
lock)`, the serialized size of the data region.  Result: (error code,
the list `t` after the call, the store after the call).  A missing key
resets `t` and writes the empty record back; any other short read is an
error. -/
def load_temperature_list (fullSize : Int) (bytesRead : Int)
    (content : TemperatureList) (store : Option TemperatureList) :
    ErrorE × TemperatureList × Option TemperatureList :=
  if bytesRead = -ENOENT then
    (.E_SUCCESS, [], some [])
  else if bytesRead ≠ fullSize then
    (.E_ERROR, content, store)
  else
    (.E_SUCCESS, content, store)

/-- A three-slot heap of temperature lists, for stating alias-safety of
`merge_temperature_lists`: the C function reads both sources to completion
into the stack buffer `merged[]` and only then copies into `dest`
(temperature-logger.c:298-299 and 361-362), so the store to the
destination slot happens after every source read, as encoded here.  On
error the C returns before the copy, leaving `dest` untouched. -/
def merge_temperature_lists_mem (N : Nat) (i1 i2 idest : Fin 3)
    (h : Fin 3 → TemperatureList) : ErrorE × (Fin 3 → TemperatureList) :=
  match merge_temperature_lists N (h i1) (h i2) with
  | .ok out => (.E_SUCCESS, Function.update h idest out)
  | .error e => (e, h)

/-- The acquisition sequence of `TRIPLE_LOCK` (lock.h:37-58): the three
lock identities (the C uses the `uintptr_t` addresses) are bubble-sorted
ascending with two passes of adjacent compare-and-swap, then locked in
that order. -/
def TRIPLE_LOCK_order (l1 l2 l3 : Nat) : List Nat :=
  let p1 := if l1 > l2 then (l2, l1) else (l1, l2)
  let p2 := if p1.2 > l3 then (l3, p1.2) else (p1.2, l3)
  let p3 := if p1.1 > p2.1 then (p2.1, p1.1) else (p1.1, p2.1)
  [p3.1, p3.2, p2.2]

/-- The release sequence of `TRIPLE_UNLOCK` (lock.h:60-80): the same
bubble sort, released from the last (largest) slot down to the first. -/
def TRIPLE_UNLOCK_order (l1 l2 l3 : Nat) : List Nat :=
  (TRIPLE_LOCK_order l1 l2 l3).reverse

theorem sorted_le_getLast {l : TemperatureList} (hp : List.Pairwise leU l)
    (hne : l ≠ []) : ∀ x ∈ l, x.uptime ≤ (l.getLast hne).uptime := by
  intro x hx
  have hsplit := List.dropLast_append_getLast hne
  rw [← hsplit] at hp hx
  rcases List.mem_append.mp hx with hx | hx
  · exact (List.pairwise_append.mp hp).2.2 x hx _ (by simp)
  · simp only [List.mem_singleton] at hx
    subst hx
    exact Nat.le_refl _

theorem getLastD_cons_eq_getLast (a : TemperatureSample) (l : TemperatureList) :
    l.getLastD a = (a :: l).getLast (List.cons_ne_nil a l) := by
  induction l generalizing a with
  | nil => rfl
  | cons b l ih =>
    rw [List.getLastD_cons, ih b, List.getLast_cons (List.cons_ne_nil b l)]

/-- The last sample of the chronological merge of two sorted non-empty
lists carries the larger of the two final uptimes. -/
theorem mergeChron_getLast_ut {s1 s2 : TemperatureList}
    (h1 : s1 ≠ []) (h2 : s2 ≠ [])
    (hs1 : List.Pairwise leU s1) (hs2 : List.Pairwise leU s2)
    (hM : mergeChron s1 s2 ≠ []) :
    ((mergeChron s1 s2).getLast hM).uptime =
      max ((s1.getLast h1).uptime) ((s2.getLast h2).uptime) := by
  have hMs : List.Pairwise leU (mergeChron s1 s2) := mergeChron_pairwise hs1 hs2
  apply Nat.le_antisymm
  · have hmem := List.getLast_mem hM
    rcases mem_mergeChron.mp hmem with hx | hx
    · exact Nat.le_trans (sorted_le_getLast hs1 h1 _ hx) (Nat.le_max_left _ _)
    · exact Nat.le_trans (sorted_le_getLast hs2 h2 _ hx) (Nat.le_max_right _ _)
  · apply Nat.max_le.mpr
    constructor
    · exact sorted_le_getLast hMs hM _ (mem_mergeChron.mpr (Or.inl (List.getLast_mem h1)))
    · exact sorted_le_getLast hMs hM _ (mem_mergeChron.mpr (Or.inr (List.getLast_mem h2)))

/-- The first sample of the chronological merge of two non-empty lists
carries the smaller of the two initial uptimes (`src2` on ties). -/
theorem mergeChron_head_ut (x y : TemperatureSample) (xs ys : TemperatureList)
    {a : TemperatureSample} {l : TemperatureList}
    (h : mergeChron (x :: xs) (y :: ys) = a :: l) :
    a.uptime = min x.uptime y.uptime := by
  rw [mergeChron_cons_cons] at h
  by_cases hlt : x.uptime < y.uptime
  · rw [if_pos hlt] at h
    obtain ⟨rfl, -⟩ := (List.cons.injEq _ _ _ _).mp h.symm
    omega
  · rw [if_neg hlt] at h
    obtain ⟨rfl, -⟩ := (List.cons.injEq _ _ _ _).mp h.symm
    omega

/-- Main invariant lemma for the decimation loop.  Starting at output
index `k` with running target `t = S + base*k + min k r`, with the merged
remainder `prev :: current :: pendingOf m` chronologically sorted and
ending at uptime `endU = S + base*(N-1) + min (N-1) r`, the loop emits one
sample per remaining target timestamp and succeeds. -/
theorem decimLoop_spec (N base r S endU : Nat)
    (hend : S + base * (N - 1) + min (N - 1) r = endU) :
    ∀ (fuel : Nat) (m : MergeIterator) (prev current : TemperatureSample)
      (k t : Nat) (acc : TemperatureList),
      WFIter m → k ≤ N → prev.uptime ≤ t →
      t = S + base * k + min k r →
      List.Chain' leU (prev :: current :: pendingOf m) →
      ((pendingOf m).getLastD current).uptime = endU →
      (N - k) + (pendingOf m).length + 1 ≤ fuel →
      ∃ out, decimLoop N base r fuel m prev current k t acc =
          some (.ok (acc ++ out)) ∧
        out.length = N - k ∧
        ∀ i, i < N - k →
          (out.getD i default).uptime = S + base * (k + i) + min (k + i) r := by
  intro fuel
  induction fuel with
  | zero =>
    intro m prev current k t acc _ _ _ _ _ _ hfuel
    omega
  | succ fuel ih =>
    intro m prev current k t acc hwf hkN hprev ht hchain hlast hfuel
    unfold decimLoop
    by_cases hk : k < N
    · rw [if_pos hk]
      by_cases hwin : prev.uptime ≤ t ∧ t ≤ current.uptime
      · rw [if_pos hwin]
        have ht' : t + base + (if k + 1 ≤ r then 1 else 0) =
            S + base * (k + 1) + min (k + 1) r := by
          by_cases hr : k + 1 ≤ r
          · rw [if_pos hr]
            rw [ht]
            have : min k r = k := by omega
            have h2 : min (k + 1) r = k + 1 := by omega
            rw [this, h2]
            ring
          · rw [if_neg hr]
            rw [ht]
            have : min (k + 1) r = min k r := by omega
            rw [this]
            ring
        obtain ⟨out, hout, hlen, hut⟩ := ih m prev current (k + 1)
          (t + base + (if k + 1 ≤ r then 1 else 0))
          (acc ++ [interpolate prev current t]) hwf (by omega)
          (Nat.le_trans hwin.1 (Nat.le_trans (Nat.le_add_right t base)
            (Nat.le_add_right _ _))) ht' hchain hlast (by omega)
        refine ⟨interpolate prev current t :: out, ?_, ?_, ?_⟩
        · rw [hout]
          simp
        · simp only [List.length_cons, hlen]
          omega
        · intro i hi
          cases i with
          | zero =>
            simp only [List.getD_cons_zero, interpolate_uptime, Nat.add_zero]
            exact ht
          | succ j =>
            simp only [List.getD_cons_succ]
            have hj : j < N - (k + 1) := by omega
            have := hut j hj
            have harith : k + 1 + j = k + (j + 1) := by omega
            rw [harith] at this
            exact this
      · rw [if_neg hwin]
        have hctu : current.uptime < t :=
          Nat.lt_of_not_le (fun hle => hwin ⟨hprev, hle⟩)
        have htle : t ≤ endU := by
          rw [ht, ← hend]
          have hb : base * k ≤ base * (N - 1) :=
            Nat.mul_le_mul_left base (by omega)
          have hm : min k r ≤ min (N - 1) r :=
            min_le_min (by omega) (Nat.le_refl r)
          omega
        cases hpend : pendingOf m with
        | nil =>
          exfalso
          rw [hpend] at hlast
          simp only [List.getLastD_nil] at hlast
          omega
        | cons c p =>
          obtain ⟨side, hc⟩ := current_isSome_of_pending_ne_nil (by rw [hpend]; simp)
          obtain ⟨m', hstep, hwf', hpendstep⟩ := merge_iterate_step hwf hc
          rw [hpend] at hpendstep
          obtain ⟨hg, hp'⟩ := (List.cons.injEq _ _ _ _).mp hpendstep.symm
          rw [hg] at hstep
          rw [hstep]
          show ∃ out, decimLoop N base r fuel m' current c k t acc = _ ∧ _
          apply ih m' current c k t acc hwf' hkN (Nat.le_of_lt hctu) ht
          · rw [hp']
            rw [hpend] at hchain
            exact hchain.tail
          · rw [hp']
            rw [hpend, List.getLastD_cons] at hlast
            exact hlast
          · rw [hp']
            rw [hpend] at hfuel
            simp only [List.length_cons] at hfuel
            omega
    · rw [if_neg hk]
      refine ⟨[], by simp, by simp only [List.length_nil]; omega, ?_⟩
      intro i hi
      exact absurd hi (by omega)

theorem getD_last_eq_getLast (l : TemperatureList) (hne : l ≠ []) :
    l.getD (l.length - 1) default = l.getLast hne := by
  have hlt : l.length - 1 < l.length := by
    have := List.length_pos.mpr hne
    omega
  rw [List.getD_eq_getElem l default hlt, List.getLast_eq_getElem]

/-- Success and output-timestamp shape of the decimation path, for sorted
inputs that exceed capacity. -/
theorem merge_with_decimation_spec {N : Nat} {s1 s2 : TemperatureList}
    (hN : 2 ≤ N) (hs1 : s1.sortedByTime) (hs2 : s2.sortedByTime)
    (hl1 : s1.length ≤ N) (hl2 : s2.length ≤ N)
    (hgt : N < s1.length + s2.length) :
    ∃ out, merge_with_decimation N s1 s2 = .ok out ∧
      out.length = N ∧
      out.sortedByTime ∧
      (out.getD 0 default).uptime =
        min (s1.getD 0 default).uptime (s2.getD 0 default).uptime ∧
      (out.getD (N - 1) default).uptime =
        max (s1.getD (s1.length - 1) default).uptime
          (s2.getD (s2.length - 1) default).uptime ∧
      ∀ i, i < N → (out.getD i default).uptime =
        min (s1.getD 0 default).uptime (s2.getD 0 default).uptime +
        ((max (s1.getD (s1.length - 1) default).uptime
            (s2.getD (s2.length - 1) default).uptime -
          min (s1.getD 0 default).uptime (s2.getD 0 default).uptime) / (N - 1)) * i +
        min i ((max (s1.getD (s1.length - 1) default).uptime
            (s2.getD (s2.length - 1) default).uptime -
          min (s1.getD 0 default).uptime (s2.getD 0 default).uptime) % (N - 1)) := by
  have h1ne : s1 ≠ [] := by
    intro h
    rw [h] at hgt
    simp at hgt
    omega
  have h2ne : s2 ≠ [] := by
    intro h
    rw [h] at hgt
    simp at hgt
    omega
  set startU := min (s1.getD 0 default).uptime (s2.getD 0 default).uptime with hstartU
  set endU := max (s1.getD (s1.length - 1) default).uptime
    (s2.getD (s2.length - 1) default).uptime with hendU
  set base := (endU - startU) / (N - 1) with hbase
  set r := (endU - startU) % (N - 1) with hr
  -- the merged list and its decomposition
  have hMlen : (mergeChron s1 s2).length = s1.length + s2.length :=
    mergeChron_length s1 s2
  obtain ⟨m0, M1, hM⟩ : ∃ m0 M1, mergeChron s1 s2 = m0 :: M1 := by
    cases hMc : mergeChron s1 s2 with
    | nil => rw [hMc] at hMlen; simp at hMlen; omega
    | cons a l => exact ⟨a, l, rfl⟩
  obtain ⟨m1, rest, hM1⟩ : ∃ m1 rest, M1 = m1 :: rest := by
    cases hM1c : M1 with
    | nil => rw [hM1c] at hM; rw [hM] at hMlen; simp at hMlen; omega
    | cons a l => exact ⟨a, l, rfl⟩
  rw [hM1] at hM
  have hrest_len : rest.length = s1.length + s2.length - 2 := by
    rw [hM] at hMlen
    simp at hMlen
    omega
  -- ordering facts
  have hMsorted : List.Chain' leU (mergeChron s1 s2) := mergeChron_sorted hs1 hs2
  have hps1 := sortedByTime_pairwise hs1
  have hps2 := sortedByTime_pairwise hs2
  have hm0 : m0.uptime = startU := by
    obtain ⟨a1, t1, hs1e⟩ := List.exists_cons_of_ne_nil h1ne
    obtain ⟨a2, t2, hs2e⟩ := List.exists_cons_of_ne_nil h2ne
    have hMfl : mergeChron (a1 :: t1) (a2 :: t2) = m0 :: (m1 :: rest) := by
      rw [← hs1e, ← hs2e]
      exact hM
    have hhd := mergeChron_head_ut a1 a2 t1 t2 hMfl
    rw [hstartU, hs1e, hs2e]
    simpa using hhd
  have hlast_ut : (rest.getLastD m1).uptime = endU := by
    have hMne : mergeChron s1 s2 ≠ [] := by rw [hM]; simp
    have h := mergeChron_getLast_ut h1ne h2ne hps1 hps2 hMne
    have hq1 : (mergeChron s1 s2).getLast? =
        some ((mergeChron s1 s2).getLast hMne) := List.getLast?_eq_getLast _ _
    have hq2 : (mergeChron s1 s2).getLast? = some (rest.getLastD m1) := by
      rw [hM, List.getLast?_eq_getLast _ (by simp), getLastD_cons_eq_getLast,
        List.getLast_cons (List.cons_ne_nil m1 rest)]
    have heq : (mergeChron s1 s2).getLast hMne = rest.getLastD m1 := by
      have := hq1.symm.trans hq2
      exact Option.some.inj this
    rw [← heq, h, hendU, getD_last_eq_getLast s1 h1ne, getD_last_eq_getLast s2 h2ne]
  have hse : startU ≤ endU := by
    have hmem : s1.getD 0 default ∈ s1 := by
      obtain ⟨a1, t1, hs1e⟩ := List.exists_cons_of_ne_nil h1ne
      rw [hs1e]
      simp
    have h1 : (s1.getD 0 default).uptime ≤ (s1.getLast h1ne).uptime :=
      sorted_le_getLast hps1 h1ne _ hmem
    calc startU ≤ (s1.getD 0 default).uptime := Nat.min_le_left _ _
      _ ≤ (s1.getLast h1ne).uptime := h1
      _ = (s1.getD (s1.length - 1) default).uptime := by
          rw [getD_last_eq_getLast s1 h1ne]
      _ ≤ endU := Nat.le_max_left _ _
  -- iterator priming
  have hwfI := init_merge_iterator_wf s1 s2
  have hpI : pendingOf (init_merge_iterator s1 s2) = m0 :: m1 :: rest := by
    rw [pendingOf_init, hM]
  obtain ⟨sideI, hcI⟩ := current_isSome_of_pending_ne_nil (m := init_merge_iterator s1 s2)
    (by rw [hpI]; simp)
  obtain ⟨mA, hstep0, hwfA, hpend0⟩ := merge_iterate_step hwfI hcI
  rw [hpI] at hpend0
  obtain ⟨hg0, hpA⟩ := (List.cons.injEq _ _ _ _).mp hpend0.symm
  rw [hg0] at hstep0
  obtain ⟨sideA, hcA⟩ := current_isSome_of_pending_ne_nil (m := mA) (by rw [hpA]; simp)
  obtain ⟨mB, hstep1, hwfB, hpend1⟩ := merge_iterate_step hwfA hcA
  rw [hpA] at hpend1
  obtain ⟨hg1, hpB⟩ := (List.cons.injEq _ _ _ _).mp hpend1.symm
  rw [hg1] at hstep1
  -- the loop
  have hrlt : r < N - 1 := by
    rw [hr]
    exact Nat.mod_lt _ (by omega)
  have hdivmod : base * (N - 1) + r = endU - startU := by
    rw [hbase, hr, Nat.mul_comm]
    exact Nat.div_add_mod _ _
  obtain ⟨out, hloop, hlen, hut⟩ := decimLoop_spec N base r startU endU
    (by
      have hminr : min (N - 1) r = r := by omega
      rw [hminr]
      omega)
    (N + s1.length + s2.length + 1) mB m0 m1 0 startU []
    hwfB (by omega) (by omega)
    (by simp)
    (by
      rw [hpB, ← hM]
      exact hMsorted)
    (by
      rw [hpB]
      exact hlast_ut)
    (by rw [hpB]; omega)
  have hut' : ∀ i, i < N → (out.getD i default).uptime = startU + base * i + min i r := by
    intro i hi
    have := hut i (by omega)
    simpa using this
  refine ⟨out, ?_, hlen, ?_, ?_, ?_, hut'⟩
  · unfold merge_with_decimation
    rw [hstep0]
    show (match merge_iterate mA with
      | .error _ => Except.error ErrorE.E_ERROR
      | .ok (current, m2) =>
        match decimLoop N base r (N + s1.length + s2.length + 1) m2 m0 current
            0 startU [] with
        | some res => res
        | none => Except.error ErrorE.E_ERROR) = Except.ok out
    rw [hstep1]
    show (match decimLoop N base r (N + s1.length + s2.length + 1) mB m0 m1
        0 startU [] with
      | some res => res
      | none => Except.error ErrorE.E_ERROR) = Except.ok out
    rw [hloop]
    simp
  · -- sortedness of the output: target timestamps are non-decreasing
    apply pairwise_sortedByTime
    apply List.chain'_iff_pairwise.mp
    rw [List.chain'_iff_get]
    intro i hi
    have h1 := hut' i (by omega)
    have h2 := hut' (i + 1) (by omega)
    show (out.get _).uptime ≤ (out.get _).uptime
    rw [List.get_eq_getElem, List.get_eq_getElem,
      ← List.getD_eq_getElem out default (by omega),
      ← List.getD_eq_getElem out default (by omega), h1, h2]
    have hb : base * i ≤ base * (i + 1) := Nat.mul_le_mul_left base (by omega)
    have hm : min i r ≤ min (i + 1) r := min_le_min (by omega) (Nat.le_refl r)
    omega
  · have := hut' 0 (by omega)
    simpa using this
  · have := hut' (N - 1) (by omega)
    rw [this]
    have hminr : min (N - 1) r = r := by omega
    rw [hminr]
    omega

/-! ## Claim theorems -/

/-- C1: for sorted sources with `len1 + len2 ≤ N` (including exact equality
with `N`, which takes the exact-merge path), `merge_temperature_lists`
succeeds, the output length is `len1 + len2`, the output is non-decreasing
in timestamp, and the multiset of samples in the output is exactly the
union of the samples of the two sources — nothing lost, duplicated or
interpolated. -/
theorem exact_merge_complete (N : Nat) (src1 src2 : TemperatureList)
    (h1 : src1.sortedByTime) (h2 : src2.sortedByTime)
    (hle : src1.length + src2.length ≤ N) :
    ∃ out, merge_temperature_lists N src1 src2 = .ok out ∧
      out.length = src1.length + src2.length ∧
      out.sortedByTime ∧
      (↑out : Multiset TemperatureSample) = ↑src1 + ↑src2 := by
  refine ⟨mergeChron src1 src2, ?_, mergeChron_length _ _,
    mergeChron_sorted h1 h2, ?_⟩
  · unfold merge_temperature_lists
    rw [if_pos hle]
    exact merge_without_decimation_eq src1 src2
  · have hperm := mergeChron_perm src1 src2
    calc (↑(mergeChron src1 src2) : Multiset TemperatureSample)
        = ↑(src1 ++ src2) := Multiset.coe_eq_coe.mpr hperm
      _ = ↑src1 + ↑src2 := by simp

/-- C1 witness, exercising the boundary `len1 + len2 = N` exactly. -/
theorem exact_merge_complete_witness :
    TemperatureList.sortedByTime [⟨160, 10⟩, ⟨480, 20⟩] ∧
    TemperatureList.sortedByTime [⟨800, 30⟩, ⟨1120, 40⟩] ∧
    ([⟨160, 10⟩, ⟨480, 20⟩] : TemperatureList).length +
      ([⟨800, 30⟩, ⟨1120, 40⟩] : TemperatureList).length ≤ 4 ∧
    (∃ out, merge_temperature_lists 4 [⟨160, 10⟩, ⟨480, 20⟩]
        [⟨800, 30⟩, ⟨1120, 40⟩] = .ok out ∧
      out.length = ([⟨160, 10⟩, ⟨480, 20⟩] : TemperatureList).length +
        ([⟨800, 30⟩, ⟨1120, 40⟩] : TemperatureList).length ∧
      out.sortedByTime ∧
      (↑out : Multiset TemperatureSample) =
        ↑([⟨160, 10⟩, ⟨480, 20⟩] : TemperatureList) +
        ↑([⟨800, 30⟩, ⟨1120, 40⟩] : TemperatureList)) :=
  ⟨by decide, by decide, by decide,
    exact_merge_complete 4 _ _ (by decide) (by decide) (by decide)⟩

/-- C2: for sorted sources with both lengths `≤ N` and total `> N`, the
decimation path produces exactly `N` samples whose timestamps start at the
minimum first timestamp, end at the maximum last timestamp, are
non-decreasing, and advance by `base_period = (end-start) div (N-1)` with
one extra minute on each of the first `(end-start) mod (N-1)` steps. -/
theorem decimation_shape (N : Nat) (src1 src2 : TemperatureList)
    (hN : 2 ≤ N) (h1 : src1.sortedByTime) (h2 : src2.sortedByTime)
    (hl1 : src1.length ≤ N) (hl2 : src2.length ≤ N)
    (hgt : N < src1.length + src2.length) :
    ∃ out, merge_temperature_lists N src1 src2 = .ok out ∧
      out.length = N ∧
      out.sortedByTime ∧
      (out.getD 0 default).uptime =
        min (src1.getD 0 default).uptime (src2.getD 0 default).uptime ∧
      (out.getD (N - 1) default).uptime =
        max (src1.getD (src1.length - 1) default).uptime
          (src2.getD (src2.length - 1) default).uptime ∧
      ∀ i, i < N → (out.getD i default).uptime =
        min (src1.getD 0 default).uptime (src2.getD 0 default).uptime +
        ((max (src1.getD (src1.length - 1) default).uptime
            (src2.getD (src2.length - 1) default).uptime -
          min (src1.getD 0 default).uptime (src2.getD 0 default).uptime) / (N - 1)) * i +
        min i ((max (src1.getD (src1.length - 1) default).uptime
            (src2.getD (src2.length - 1) default).uptime -
          min (src1.getD 0 default).uptime (src2.getD 0 default).uptime) % (N - 1)) := by
  obtain ⟨out, hout, hlen, hsort, hhead, hlast, hform⟩ :=
    merge_with_decimation_spec hN h1 h2 hl1 hl2 hgt
  refine ⟨out, ?_, hlen, hsort, hhead, hlast, hform⟩
  unfold merge_temperature_lists
  rw [if_neg (by omega)]
  exact hout

/-- C2 witness: two 2-sample sorted lists into capacity 3
(duration 55, base period 27, remainder 1, targets 10, 38, 65). -/
theorem decimation_shape_witness :
    (2 : Nat) ≤ 3 ∧
    TemperatureList.sortedByTime [⟨160, 10⟩, ⟨166, 20⟩] ∧
    TemperatureList.sortedByTime [⟨178, 40⟩, ⟨193, 65⟩] ∧
    ([⟨160, 10⟩, ⟨166, 20⟩] : TemperatureList).length ≤ 3 ∧
    ([⟨178, 40⟩, ⟨193, 65⟩] : TemperatureList).length ≤ 3 ∧
    3 < ([⟨160, 10⟩, ⟨166, 20⟩] : TemperatureList).length +
      ([⟨178, 40⟩, ⟨193, 65⟩] : TemperatureList).length ∧
    (∃ out, merge_temperature_lists 3 [⟨160, 10⟩, ⟨166, 20⟩]
        [⟨178, 40⟩, ⟨193, 65⟩] = .ok out ∧
      out.length = 3 ∧
      out.sortedByTime ∧
      (out.getD 0 default).uptime =
        min (([⟨160, 10⟩, ⟨166, 20⟩] : TemperatureList).getD 0 default).uptime
          (([⟨178, 40⟩, ⟨193, 65⟩] : TemperatureList).getD 0 default).uptime ∧
      (out.getD (3 - 1) default).uptime =
        max (([⟨160, 10⟩, ⟨166, 20⟩] : TemperatureList).getD
            (([⟨160, 10⟩, ⟨166, 20⟩] : TemperatureList).length - 1) default).uptime
          (([⟨178, 40⟩, ⟨193, 65⟩] : TemperatureList).getD
            (([⟨178, 40⟩, ⟨193, 65⟩] : TemperatureList).length - 1) default).uptime ∧
      ∀ i, i < 3 → (out.getD i default).uptime =
        min (([⟨160, 10⟩, ⟨166, 20⟩] : TemperatureList).getD 0 default).uptime
          (([⟨178, 40⟩, ⟨193, 65⟩] : TemperatureList).getD 0 default).uptime +
        ((max (([⟨160, 10⟩, ⟨166, 20⟩] : TemperatureList).getD
              (([⟨160, 10⟩, ⟨166, 20⟩] : TemperatureList).length - 1) default).uptime
            (([⟨178, 40⟩, ⟨193, 65⟩] : TemperatureList).getD
              (([⟨178, 40⟩, ⟨193, 65⟩] : TemperatureList).length - 1) default).uptime -
          min (([⟨160, 10⟩, ⟨166, 20⟩] : TemperatureList).getD 0 default).uptime
            (([⟨178, 40⟩, ⟨193, 65⟩] : TemperatureList).getD 0 default).uptime) / (3 - 1)) * i +
        min i ((max (([⟨160, 10⟩, ⟨166, 20⟩] : TemperatureList).getD
              (([⟨160, 10⟩, ⟨166, 20⟩] : TemperatureList).length - 1) default).uptime
            (([⟨178, 40⟩, ⟨193, 65⟩] : TemperatureList).getD
              (([⟨178, 40⟩, ⟨193, 65⟩] : TemperatureList).length - 1) default).uptime -
          min (([⟨160, 10⟩, ⟨166, 20⟩] : TemperatureList).getD 0 default).uptime
            (([⟨178, 40⟩, ⟨193, 65⟩] : TemperatureList).getD 0 default).uptime) % (3 - 1))) :=
  ⟨by decide, by decide, by decide, by decide, by decide, by decide,
    decimation_shape 3 _ _ (by decide) (by decide) (by decide) (by decide)
      (by decide) (by decide)⟩

/-- C5: for sorted in-capacity sources, `merge_temperature_lists` never
returns `E_END_OF_ITER`: the exact-merge drain loop converts it to success
and the decimation path maps iterator failures to `E_ERROR`. -/
theorem merge_never_end_of_iter (N : Nat) (src1 src2 : TemperatureList)
    (hN : 2 ≤ N) (h1 : src1.sortedByTime) (h2 : src2.sortedByTime)
    (hl1 : src1.length ≤ N) (hl2 : src2.length ≤ N) :
    merge_temperature_lists N src1 src2 ≠ .error .E_END_OF_ITER := by
  unfold merge_temperature_lists
  by_cases hle : src1.length + src2.length ≤ N
  · rw [if_pos hle, merge_without_decimation_eq]
    simp
  · rw [if_neg hle]
    obtain ⟨out, hout, -⟩ :=
      merge_with_decimation_spec hN h1 h2 hl1 hl2 (by omega)
    rw [hout]
    simp

/-- C5 witness. -/
theorem merge_never_end_of_iter_witness :
    (2 : Nat) ≤ 2 ∧
    TemperatureList.sortedByTime [⟨1, 1⟩] ∧
    TemperatureList.sortedByTime [⟨2, 2⟩, ⟨3, 3⟩] ∧
    ([⟨1, 1⟩] : TemperatureList).length ≤ 2 ∧
    ([⟨2, 2⟩, ⟨3, 3⟩] : TemperatureList).length ≤ 2 ∧
    merge_temperature_lists 2 [⟨1, 1⟩] [⟨2, 2⟩, ⟨3, 3⟩] ≠
      .error .E_END_OF_ITER :=
  ⟨by decide, by decide, by decide, by decide, by decide,
    merge_never_end_of_iter 2 _ _ (by decide) (by decide) (by decide)
      (by decide) (by decide)⟩

/-- C6: appending to a full list fails with `E_NOBUFS` and leaves the list
unchanged; appending below capacity succeeds, writes the sample at index
`length`, increments `length` by one, and preserves the stored prefix. -/
theorem append_full_vs_space (N : Nat) (list : TemperatureList)
    (sample : TemperatureSample) :
    (list.length = N →
      append_temperature_sample N list sample = (.E_NOBUFS, list)) ∧
    (list.length < N →
      append_temperature_sample N list sample = (.E_SUCCESS, list ++ [sample]) ∧
      (list ++ [sample]).length = list.length + 1 ∧
      (list ++ [sample]).take list.length = list ∧
      (list ++ [sample]).getD list.length default = sample) := by
  constructor
  · intro h
    unfold append_temperature_sample
    rw [if_pos h]
  · intro h
    refine ⟨?_, by simp, List.take_left list [sample], ?_⟩
    · unfold append_temperature_sample
      rw [if_neg (by omega)]
    · rw [List.getD_eq_getElem _ default (by simp)]
      simp

/-- C6 witness: a full 2-list rejects, a 1-list accepts. -/
theorem append_full_vs_space_witness :
    (([⟨1, 1⟩, ⟨2, 2⟩] : TemperatureList).length = 2 ∧
      append_temperature_sample 2 [⟨1, 1⟩, ⟨2, 2⟩] ⟨3, 3⟩ =
        (.E_NOBUFS, [⟨1, 1⟩, ⟨2, 2⟩])) ∧
    (([⟨1, 1⟩] : TemperatureList).length < 2 ∧
      append_temperature_sample 2 [⟨1, 1⟩] ⟨3, 3⟩ =
        (.E_SUCCESS, [⟨1, 1⟩] ++ [⟨3, 3⟩])) :=
  ⟨⟨by decide, (append_full_vs_space 2 [⟨1, 1⟩, ⟨2, 2⟩] ⟨3, 3⟩).1 (by decide)⟩,
   ⟨by decide, ((append_full_vs_space 2 [⟨1, 1⟩] ⟨3, 3⟩).2 (by decide)).1⟩⟩

/-- C7: `load_temperature_list` succeeds exactly on a full-size read or a
missing key; a missing key resets the list to empty and writes that empty
record back (so the key exists afterwards); every other read outcome is an
error (`E_ERROR`), never partial data reported as success. -/
theorem load_success_cases (fullSize bytesRead : Int)
    (content : TemperatureList) (store : Option TemperatureList)
    (_hS : 0 < fullSize) :
    ((load_temperature_list fullSize bytesRead content store).1 = .E_SUCCESS ↔
      bytesRead = fullSize ∨ bytesRead = -ENOENT) ∧
    (bytesRead = -ENOENT →
      load_temperature_list fullSize bytesRead content store =
        (.E_SUCCESS, [], some []) ∧
      ((load_temperature_list fullSize bytesRead content store).2.2).isSome) ∧
    (bytesRead ≠ fullSize → bytesRead ≠ -ENOENT →
      (load_temperature_list fullSize bytesRead content store).1 = .E_ERROR) := by
  unfold load_temperature_list ENOENT
  by_cases h1 : bytesRead = -2
  · rw [if_pos h1]
    exact ⟨by simp [ENOENT, h1], fun _ => ⟨rfl, rfl⟩, fun _ h => absurd h1 h⟩
  · rw [if_neg h1]
    by_cases h2 : bytesRead = fullSize
    · rw [if_neg (by omega)]
      exact ⟨by simp [ENOENT, h2], fun h => absurd h (by simpa [ENOENT] using h1),
        fun h _ => absurd h2 h⟩
    · rw [if_pos (by omega)]
      refine ⟨?_, fun h => absurd h (by simpa [ENOENT] using h1), fun _ _ => rfl⟩
      simp only [ENOENT]
      constructor
      · intro h
        exact absurd h (by simp)
      · intro h
        rcases h with h | h
        · exact absurd h h2
        · exact absurd h (by simpa using h1)

/-- C7 witness: a full read of 3 bytes, a missing key, and a short read. -/
theorem load_success_cases_witness :
    (0 : Int) < 3 ∧
    ((load_temperature_list 3 3 [⟨1, 1⟩] none).1 = .E_SUCCESS ↔
      (3 : Int) = 3 ∨ (3 : Int) = -ENOENT) ∧
    ((-2 : Int) = -ENOENT →
      load_temperature_list 3 (-2) [⟨1, 1⟩] none = (.E_SUCCESS, [], some []) ∧
      ((load_temperature_list 3 (-2) [⟨1, 1⟩] none).2.2).isSome) ∧
    ((1 : Int) ≠ 3 → (1 : Int) ≠ -ENOENT →
      (load_temperature_list 3 1 [⟨1, 1⟩] none).1 = .E_ERROR) :=
  ⟨by decide,
    (load_success_cases 3 3 [⟨1, 1⟩] none (by decide)).1,
    (load_success_cases 3 (-2) [⟨1, 1⟩] none (by decide)).2.1,
    (load_success_cases 3 1 [⟨1, 1⟩] none (by decide)).2.2⟩

/-- C8: `merge_temperature_lists` is alias-safe: with the destination slot
aliasing either source slot (or any slot), the final destination contents
equal the output that a call with a fresh, non-aliased destination
produces, because the result is staged locally and written only after all
source reads. -/
theorem merge_alias_safe (N : Nat) (i1 i2 idest : Fin 3)
    (h : Fin 3 → TemperatureList) (hN : 2 ≤ N)
    (h1 : (h i1).sortedByTime) (h2 : (h i2).sortedByTime)
    (hl1 : (h i1).length ≤ N) (hl2 : (h i2).length ≤ N) :
    ∃ out, merge_temperature_lists N (h i1) (h i2) = .ok out ∧
      (merge_temperature_lists_mem N i1 i2 idest h).1 = .E_SUCCESS ∧
      (merge_temperature_lists_mem N i1 i2 idest h).2 idest = out := by
  have hok : ∃ out, merge_temperature_lists N (h i1) (h i2) = .ok out := by
    by_cases hle : (h i1).length + (h i2).length ≤ N
    · refine ⟨mergeChron (h i1) (h i2), ?_⟩
      unfold merge_temperature_lists
      rw [if_pos hle]
      exact merge_without_decimation_eq _ _
    · obtain ⟨out, hout, -⟩ :=
        merge_with_decimation_spec hN h1 h2 hl1 hl2 (by omega)
      refine ⟨out, ?_⟩
      unfold merge_temperature_lists
      rw [if_neg hle]
      exact hout
  obtain ⟨out, hout⟩ := hok
  refine ⟨out, hout, ?_, ?_⟩
  · unfold merge_temperature_lists_mem
    rw [hout]
  · unfold merge_temperature_lists_mem
    rw [hout]
    exact Function.update_same idest out h

/-- C8 witness: `dest` aliases `src2` (slot 1). -/
theorem merge_alias_safe_witness :
    (2 : Nat) ≤ 2 ∧
    TemperatureList.sortedByTime ((![[⟨1, 1⟩], [⟨2, 2⟩], []] : Fin 3 → TemperatureList) 0) ∧
    TemperatureList.sortedByTime ((![[⟨1, 1⟩], [⟨2, 2⟩], []] : Fin 3 → TemperatureList) 1) ∧
    ((![[⟨1, 1⟩], [⟨2, 2⟩], []] : Fin 3 → TemperatureList) 0).length ≤ 2 ∧
    ((![[⟨1, 1⟩], [⟨2, 2⟩], []] : Fin 3 → TemperatureList) 1).length ≤ 2 ∧
    (∃ out, merge_temperature_lists 2
        ((![[⟨1, 1⟩], [⟨2, 2⟩], []] : Fin 3 → TemperatureList) 0)
        ((![[⟨1, 1⟩], [⟨2, 2⟩], []] : Fin 3 → TemperatureList) 1) = .ok out ∧
      (merge_temperature_lists_mem 2 0 1 1
        (![[⟨1, 1⟩], [⟨2, 2⟩], []] : Fin 3 → TemperatureList)).1 = .E_SUCCESS ∧
      (merge_temperature_lists_mem 2 0 1 1
        (![[⟨1, 1⟩], [⟨2, 2⟩], []] : Fin 3 → TemperatureList)).2 1 = out) :=
  ⟨by decide, by decide, by decide, by decide, by decide,
    merge_alias_safe 2 0 1 1 _ (by decide) (by decide) (by decide)
      (by decide) (by decide)⟩

/-- C9: for three distinct lock identities in any argument order,
`TRIPLE_LOCK` acquires in strictly ascending identity order (the
acquisition sequence is the ascending sort of the three identities) and
`TRIPLE_UNLOCK` releases in exactly the reverse (descending) order. -/
theorem triple_lock_ordering (a b c : Nat)
    (hab : a ≠ b) (hac : a ≠ c) (hbc : b ≠ c) :
    List.Chain' (· < ·) (TRIPLE_LOCK_order a b c) ∧
    List.Perm (TRIPLE_LOCK_order a b c) [a, b, c] ∧
    TRIPLE_UNLOCK_order a b c = (TRIPLE_LOCK_order a b c).reverse ∧
    List.Chain' (· > ·) (TRIPLE_UNLOCK_order a b c) := by
  have hperm : List.Perm (TRIPLE_LOCK_order a b c) [a, b, c] := by
    simp only [TRIPLE_LOCK_order]
    split_ifs <;> dsimp only <;>
      first
        | exact (by omega : False).elim
        | exact List.Perm.refl [a, b, c]
        | exact List.Perm.swap a b [c]
        | exact List.Perm.cons a (List.Perm.swap b c [])
        | exact List.Perm.trans (List.Perm.cons b (List.Perm.swap a c []))
            (List.Perm.swap a b [c])
        | exact List.Perm.trans (List.Perm.swap a c [b])
            (List.Perm.cons a (List.Perm.swap b c []))
        | exact List.Perm.trans (List.Perm.swap b c [a])
            (List.Perm.trans (List.Perm.cons b (List.Perm.swap a c []))
              (List.Perm.swap a b [c]))
  have hchain : List.Chain' (· < ·) (TRIPLE_LOCK_order a b c) := by
    simp only [TRIPLE_LOCK_order]
    split_ifs <;> dsimp only <;>
      simp only [List.chain'_cons, List.chain'_singleton, and_true] <;> omega
  refine ⟨hchain, hperm, rfl, ?_⟩
  unfold TRIPLE_UNLOCK_order
  rw [List.chain'_reverse]
  have : (fun x y => x < y) = flip (fun x y : Nat => x > y) := rfl
  exact hchain

/-- C9 witness: identities 30, 10, 20 passed out of order. -/
theorem triple_lock_ordering_witness :
    (30 : Nat) ≠ 10 ∧ (30 : Nat) ≠ 20 ∧ (10 : Nat) ≠ 20 ∧
    List.Chain' (· < ·) (TRIPLE_LOCK_order 30 10 20) ∧
    List.Perm (TRIPLE_LOCK_order 30 10 20) [30, 10, 20] ∧
    TRIPLE_UNLOCK_order 30 10 20 = (TRIPLE_LOCK_order 30 10 20).reverse ∧
    List.Chain' (· > ·) (TRIPLE_UNLOCK_order 30 10 20) := by
  have h := triple_lock_ordering 30 10 20 (by decide) (by decide) (by decide)
  exact ⟨by decide, by decide, by decide, h.1, h.2.1, h.2.2.1, h.2.2.2⟩

/-- C10: the decimation loop terminates within `N` emissions plus one
consumption per merged input sample: with fuel at least
`(N - k) + pending + 1` it never runs out, because every iteration either
emits one of the at most `N` outputs or consumes one pending input sample,
and an advance on an exhausted iterator returns an error result rather
than looping. -/
theorem decimLoop_terminates :
    (∀ (N base r fuel : Nat) (m : MergeIterator)
      (prev current : TemperatureSample) (k t : Nat) (acc : TemperatureList),
      WFIter m → (N - k) + (pendingOf m).length + 1 ≤ fuel →
      decimLoop N base r fuel m prev current k t acc ≠ none) ∧
    (∀ m : MergeIterator, m.current_list = none →
      merge_iterate m = .error .E_END_OF_ITER) := by
  constructor
  · intro N base r fuel
    induction fuel with
    | zero =>
      intro m prev current k t acc _ hfuel
      omega
    | succ fuel ih =>
      intro m prev current k t acc hwf hfuel
      unfold decimLoop
      by_cases hk : k < N
      · rw [if_pos hk]
        by_cases hwin : prev.uptime ≤ t ∧ t ≤ current.uptime
        · rw [if_pos hwin]
          exact ih m prev current (k + 1) _ _ hwf (by omega)
        · rw [if_neg hwin]
          cases hpend : pendingOf m with
          | nil =>
            have hnone : m.current_list = none := by
              cases hc : m.current_list with
              | none => rfl
              | some side =>
                rw [pendingOf, hc] at hpend
                simp at hpend
            rw [merge_iterate_exhausted hnone]
            simp
          | cons s pend =>
            obtain ⟨side, hc⟩ := current_isSome_of_pending_ne_nil
              (by rw [hpend]; simp)
            obtain ⟨m', hstep, hwf', hpendstep⟩ := merge_iterate_step hwf hc
            rw [hpend] at hpendstep
            obtain ⟨hg, hp'⟩ := (List.cons.injEq _ _ _ _).mp hpendstep.symm
            rw [hg] at hstep
            rw [hstep]
            show decimLoop N base r fuel m' current s k t acc ≠ none
            apply ih m' current s k t acc hwf'
            rw [hp']
            rw [hpend] at hfuel
            simp only [List.length_cons] at hfuel
            omega
      · rw [if_neg hk]
        simp
  · intro m hm
    exact merge_iterate_exhausted hm

/-- C10 witness: a one-sample iterator state within the fuel bound, and an
exhausted iterator state. -/
theorem decimLoop_terminates_witness :
    WFIter ⟨[⟨5, 5⟩], [], none, 0, 1, 0⟩ ∧
    (1 - 0) + (pendingOf ⟨[⟨5, 5⟩], [], none, 0, 1, 0⟩).length + 1 ≤ 3 ∧
    decimLoop 1 7 0 3 ⟨[⟨5, 5⟩], [], none, 0, 1, 0⟩ ⟨0, 0⟩ ⟨0, 9⟩ 0 0 [] ≠
      none ∧
    merge_iterate ⟨[], [], none, 0, 0, 0⟩ = .error .E_END_OF_ITER :=
  ⟨by decide, by decide,
    decimLoop_terminates.1 1 7 0 3 ⟨[⟨5, 5⟩], [], none, 0, 1, 0⟩
      ⟨0, 0⟩ ⟨0, 9⟩ 0 0 [] (by decide) (by decide),
    decimLoop_terminates.2 ⟨[], [], none, 0, 0, 0⟩ (by decide)⟩

/-- C4: the merge iterator's tie rule.  (a) When both sources are
non-empty and their first samples have equal timestamps, the first yielded
sample is `src2`'s head.  (b) At any advance step where both sources still
have unconsumed samples with equal next timestamps, the iterator advances
to `src2`'s next sample, so it is yielded before `src1`'s.  The yielded
sequence is a pure function of the two input lists (`pendingOf`/`mergeChron`),
hence deterministic. -/
theorem merge_tie_prefers_src2 :
    (∀ (x y : TemperatureSample) (xs ys : TemperatureList),
      x.uptime = y.uptime →
      ∃ m', merge_iterate (init_merge_iterator (x :: xs) (y :: ys)) =
        .ok (y, m')) ∧
    (∀ (m : MergeIterator) (side : Side), m.current_list = some side →
      m.current_index < (m.listOf side).length →
      m.next_src1_index < m.src1.length →
      m.next_src2_index < m.src2.length →
      (m.src1.getD m.next_src1_index default).uptime =
        (m.src2.getD m.next_src2_index default).uptime →
      ∃ s m', merge_iterate m = .ok (s, m') ∧
        m'.current_list = some Side.two ∧
        m'.current_index = m.next_src2_index ∧
        m'.next_src2_index = m.next_src2_index + 1) := by
  constructor
  · intro x y xs ys heq
    have hc : (init_merge_iterator (x :: xs) (y :: ys)).current_list =
        some Side.two := by
      unfold init_merge_iterator
      rw [if_neg (by simp), if_neg (by simp), if_neg (by simp),
        if_neg (by simp only [List.getD_cons_zero]; omega)]
    obtain ⟨m', hstep, -, -⟩ :=
      merge_iterate_step (init_merge_iterator_wf (x :: xs) (y :: ys)) hc
    refine ⟨m', ?_⟩
    rw [hstep]
    have hsample : ((init_merge_iterator (x :: xs) (y :: ys)).listOf
        Side.two).getD (init_merge_iterator (x :: xs) (y :: ys)).current_index
        default = y := by
      unfold init_merge_iterator
      rw [if_neg (by simp), if_neg (by simp), if_neg (by simp),
        if_neg (by simp only [List.getD_cons_zero]; omega)]
      rfl
    rw [hsample]
  · intro m side hc hcur h1lt h2lt heq
    simp only [merge_iterate, hc]
    rw [if_neg (by rintro ⟨ha, -⟩; omega), if_neg (by omega),
      if_neg (by omega), if_neg (by omega)]
    exact ⟨_, _, rfl, rfl, rfl, rfl⟩

/-- C4 witness: equal first timestamps at init, and an equal-timestamp
advance step mid-iteration. -/
theorem merge_tie_prefers_src2_witness :
    ((⟨7, 5⟩ : TemperatureSample).uptime = (⟨9, 5⟩ : TemperatureSample).uptime ∧
      ∃ m', merge_iterate (init_merge_iterator [⟨7, 5⟩] [⟨9, 5⟩]) =
        .ok (⟨9, 5⟩, m')) ∧
    ((⟨[⟨1, 1⟩, ⟨3, 4⟩], [⟨2, 2⟩, ⟨4, 4⟩], some Side.one, 0, 1, 1⟩ :
        MergeIterator).current_list = some Side.one ∧
      (⟨[⟨1, 1⟩, ⟨3, 4⟩], [⟨2, 2⟩, ⟨4, 4⟩], some Side.one, 0, 1, 1⟩ :
        MergeIterator).current_index <
        ((⟨[⟨1, 1⟩, ⟨3, 4⟩], [⟨2, 2⟩, ⟨4, 4⟩], some Side.one, 0, 1, 1⟩ :
          MergeIterator).listOf Side.one).length ∧
      ∃ s m', merge_iterate
          ⟨[⟨1, 1⟩, ⟨3, 4⟩], [⟨2, 2⟩, ⟨4, 4⟩], some Side.one, 0, 1, 1⟩ =
          .ok (s, m') ∧
        m'.current_list = some Side.two ∧
        m'.current_index = 1 ∧
        m'.next_src2_index = 2) :=
  ⟨⟨by decide, merge_tie_prefers_src2.1 ⟨7, 5⟩ ⟨9, 5⟩ [] [] (by decide)⟩,
   ⟨by decide, by decide,
    merge_tie_prefers_src2.2
      ⟨[⟨1, 1⟩, ⟨3, 4⟩], [⟨2, 2⟩, ⟨4, 4⟩], some Side.one, 0, 1, 1⟩
      Side.one (by decide) (by decide) (by decide) (by decide) (by decide)⟩⟩

theorem tdiv_mul_cancel_two (d h : Int) (hp : 0 < h) :
    Int.tdiv (d * h) (h * 2) = Int.tdiv d 2 := by
  rcases le_or_lt 0 d with hd | hd
  · rw [Int.tdiv_eq_ediv (by positivity) (by positivity),
      Int.tdiv_eq_ediv hd (by norm_num), mul_comm d h,
      Int.mul_ediv_mul_of_pos _ _ hp]
  · have hd' : d = -(-d) := by ring
    rw [hd', neg_mul, Int.neg_tdiv, Int.neg_tdiv,
      Int.tdiv_eq_ediv (by nlinarith) (by positivity),
      Int.tdiv_eq_ediv (by omega) (by norm_num), mul_comm (-d) h,
      Int.mul_ediv_mul_of_pos _ _ hp]

/-- C3 counterexample: the claim's midpoint property
`interpolate(a, b, (a.ts+b.ts)/2).value = (a.value+b.value)/2` fails when
the first argument is the later sample.  With `a = (ts 20, raw 100)` and
`b = (ts 10, raw 0)` the claim demands `(100+0)/2 = 50` (and the claim's
general later-minus-earlier formula demands `0 + 100·(15-10)/10 = 50`),
but the code computes `d_temp = t2.temperature - t1.temperature = -100`
and returns `-50`.  All intermediates are exactly representable in
`binary32`, so the exact-arithmetic model agrees with the C float
computation here. -/
theorem interpolate_claim_cex :
    ¬ ((interpolate ⟨100, 20⟩ ⟨0, 10⟩ ((20 + 10) / 2)).temperature =
      Int.tdiv (100 + 0) 2) := by decide

/-- C3 (amended): equal timestamps give the truncating mean regardless of
the target; otherwise the result has the target timestamp and value
`earlier.value + trunc(d_temp · (t - earlier.ts) / (later.ts - earlier.ts))`
where `d_temp = t2.value - t1.value` is second-argument-minus-first (not
later-minus-earlier), each narrowing store wrapping to `int16_t`; the
midpoint property holds in the form
`a.value + trunc((b.value - a.value)/2)` when the first argument is the
earlier sample and the timestamp gap is even. -/
theorem interpolate_spec :
    (∀ (t1 t2 : TemperatureSample) (t : Nat),
      t1.uptime = t2.uptime →
      -(2 ^ 15) ≤ t1.temperature → t1.temperature < 2 ^ 15 →
      -(2 ^ 15) ≤ t2.temperature → t2.temperature < 2 ^ 15 →
      interpolate t1 t2 t =
        ⟨Int.tdiv (t1.temperature + t2.temperature) 2, t⟩) ∧
    (∀ (t1 t2 : TemperatureSample) (t : Nat),
      t1.uptime ≠ t2.uptime →
      min t1.uptime t2.uptime ≤ t →
      interpolate t1 t2 t =
        ⟨wrap16 ((if t1.uptime < t2.uptime then t1.temperature
            else t2.temperature) +
          wrap16 (Int.tdiv ((t2.temperature - t1.temperature) *
            ((t - min t1.uptime t2.uptime : Nat) : Int))
            ((max t1.uptime t2.uptime - min t1.uptime t2.uptime : Nat) : Int))),
          t⟩) ∧
    (∀ a b : TemperatureSample,
      a.uptime < b.uptime → (b.uptime - a.uptime) % 2 = 0 →
      -(2 ^ 14) < a.temperature → a.temperature < 2 ^ 14 →
      -(2 ^ 14) < b.temperature → b.temperature < 2 ^ 14 →
      (interpolate a b ((a.uptime + b.uptime) / 2)).temperature =
        a.temperature + Int.tdiv (b.temperature - a.temperature) 2) := by
  refine ⟨?_, ?_, ?_⟩
  · intro t1 t2 t heq h11 h12 h21 h22
    simp only [interpolate]
    rw [if_pos heq]
    have hq : ((t1.temperature + t2.temperature).tdiv 2).natAbs =
        (t1.temperature + t2.temperature).natAbs / 2 :=
      Int.natAbs_tdiv _ 2
    have hsign1 : 0 ≤ t1.temperature + t2.temperature →
        0 ≤ (t1.temperature + t2.temperature).tdiv 2 :=
      fun h => Int.tdiv_nonneg h (by norm_num)
    have hsign2 : t1.temperature + t2.temperature ≤ 0 →
        (t1.temperature + t2.temperature).tdiv 2 ≤ 0 := by
      intro h
      have hpos := Int.tdiv_nonneg
        (a := -(t1.temperature + t2.temperature)) (b := 2) (by omega) (by norm_num)
      rw [Int.neg_tdiv] at hpos
      omega
    rw [wrap16_eq_self (by omega) (by omega)]
  · intro t1 t2 t hne hmin
    simp only [interpolate]
    rw [if_neg hne]
    split_ifs with hlt
    · rw [Nat.min_eq_left (Nat.le_of_lt hlt), Nat.max_eq_right (Nat.le_of_lt hlt)]
    · have hlt' : t2.uptime < t1.uptime := by omega
      rw [Nat.min_eq_right (Nat.le_of_lt hlt'), Nat.max_eq_left (Nat.le_of_lt hlt')]
  · intro a b hab heven ha1 ha2 hb1 hb2
    have hne : a.uptime ≠ b.uptime := by omega
    have hnpos : 0 < (b.uptime - a.uptime) / 2 := by omega
    have h2hn : b.uptime - a.uptime = 2 * ((b.uptime - a.uptime) / 2) := by omega
    have hmid : (a.uptime + b.uptime) / 2 - a.uptime = (b.uptime - a.uptime) / 2 := by
      omega
    simp only [interpolate]
    rw [if_neg hne]
    split_ifs
    · have hcast1 : ((b.uptime - a.uptime : Nat) : Int) =
          (((b.uptime - a.uptime) / 2 : Nat) : Int) * 2 := by
        omega
      have hcast2 : (((a.uptime + b.uptime) / 2 - a.uptime : Nat) : Int) =
          (((b.uptime - a.uptime) / 2 : Nat) : Int) := by
        rw [hmid]
      show wrap16 (a.temperature + wrap16 (Int.tdiv
          ((b.temperature - a.temperature) *
            (((a.uptime + b.uptime) / 2 - a.uptime : Nat) : Int))
          ((b.uptime - a.uptime : Nat) : Int))) =
        a.temperature + Int.tdiv (b.temperature - a.temperature) 2
      rw [hcast1, hcast2,
        tdiv_mul_cancel_two _ _ (by exact_mod_cast hnpos)]
      have hq : ((b.temperature - a.temperature).tdiv 2).natAbs =
          (b.temperature - a.temperature).natAbs / 2 :=
        Int.natAbs_tdiv _ 2
      have hsign1 : 0 ≤ b.temperature - a.temperature →
          0 ≤ (b.temperature - a.temperature).tdiv 2 :=
        fun h => Int.tdiv_nonneg h (by norm_num)
      have hsign2 : b.temperature - a.temperature ≤ 0 →
          (b.temperature - a.temperature).tdiv 2 ≤ 0 := by
        intro h
        have hpos := Int.tdiv_nonneg
          (a := -(b.temperature - a.temperature)) (b := 2) (by omega) (by norm_num)
        rw [Int.neg_tdiv] at hpos
        omega
      rw [wrap16_eq_self (x := Int.tdiv (b.temperature - a.temperature) 2)
        (by omega) (by omega)]
      rw [wrap16_eq_self (by omega) (by omega)]

/-- C3 witness: equal timestamps (mean 7 of raw 11 and 4 at any target);
general formula with the earlier sample first (raw 0→100 over minutes
10→20, target 17, value 70); midpoint with even gap (target 15, value 50). -/
theorem interpolate_spec_witness :
    ((⟨11, 5⟩ : TemperatureSample).uptime = (⟨4, 5⟩ : TemperatureSample).uptime ∧
      interpolate ⟨11, 5⟩ ⟨4, 5⟩ 99 = ⟨Int.tdiv (11 + 4) 2, 99⟩) ∧
    ((⟨0, 10⟩ : TemperatureSample).uptime ≠ (⟨100, 20⟩ : TemperatureSample).uptime ∧
      interpolate ⟨0, 10⟩ ⟨100, 20⟩ 17 =
        ⟨wrap16 ((if ((⟨0, 10⟩ : TemperatureSample)).uptime <
              ((⟨100, 20⟩ : TemperatureSample)).uptime then (0 : Int) else 100) +
          wrap16 (Int.tdiv ((100 - 0) * ((17 - min 10 20 : Nat) : Int))
            ((max 10 20 - min 10 20 : Nat) : Int))), 17⟩) ∧
    ((⟨0, 10⟩ : TemperatureSample).uptime < (⟨100, 20⟩ : TemperatureSample).uptime ∧
      (interpolate ⟨0, 10⟩ ⟨100, 20⟩ ((10 + 20) / 2)).temperature =
        0 + Int.tdiv (100 - 0) 2) :=
  ⟨⟨by decide, interpolate_spec.1 ⟨11, 5⟩ ⟨4, 5⟩ 99 (by decide) (by decide)
      (by decide) (by decide) (by decide)⟩,
   ⟨by decide, interpolate_spec.2.1 ⟨0, 10⟩ ⟨100, 20⟩ 17 (by decide) (by decide)⟩,
   ⟨by decide, interpolate_spec.2.2 ⟨0, 10⟩ ⟨100, 20⟩ (by decide) (by decide)
      (by decide) (by decide) (by decide) (by decide)⟩⟩

end TempLogger
